import Mathlib

/-!
Verification of the macOS platform-probe module of the `os_info` crate
(`src/macos/mod.rs`): the version/bitness extraction and normalization
pipeline.  Rust functions are shallowly embedded as Lean functions; the
effectful parts (spawning `sw_vers` / `getconf`) are modelled by passing
the command outcome (`none` = spawn failure, `some` = captured stdout)
as an explicit argument.  Machine integers (`u64`) are modelled as `Nat`
with explicit `< 2^64` bounds where the Rust code can overflow.
-/

set_option maxRecDepth 4000

/-- `Bitness` enumeration from the crate: `Unknown`, `X32`, `X64`. -/
inductive Bitness : Type where
  | Unknown : Bitness
  | X32 : Bitness
  | X64 : Bitness
deriving DecidableEq, Repr

/-- The OS identity enumeration (named `Type` in the Rust crate; renamed here
because `Type` is a Lean keyword).  Only the macOS tag is relevant. -/
inductive OsType : Type where
  | Macos : OsType
deriving DecidableEq, Repr

/-- The `Version` tagged union: `Unknown`, `Semantic(major, minor, patch, edition)`
or `Custom(raw, edition)`.  The `edition` qualifier is always `None` on the
macOS path. -/
inductive Version : Type where
  | Unknown : Version
  | Semantic (major minor patch : Nat) (edition : Option String) : Version
  | Custom (raw : String) (edition : Option String) : Version
deriving DecidableEq, Repr

/-- Constructor function `Version::unknown()`. -/
def Version.unknown : Version := Version.Unknown

/-- Constructor function `Version::semantic(major, minor, patch, edition)`. -/
def Version.semantic (major minor patch : Nat) (edition : Option String) : Version :=
  Version.Semantic major minor patch edition

/-- Constructor function `Version::custom(version, edition)`. -/
def Version.custom (version : String) (edition : Option String) : Version :=
  Version.Custom version edition

/-- The immutable `Info` record `{os_type, version, bitness}`. -/
structure Info : Type where
  os_type : OsType
  version : Version
  bitness : Bitness
deriving DecidableEq, Repr

/-- Rust `str::split(sep)` on a single separator character: splits the
character list at every occurrence of `sep`; the empty input yields one
empty token, and separators at the ends yield empty tokens, exactly as in
Rust. -/
def splitOnChar (sep : Char) : List Char → List (List Char)
  | [] => [[]]
  | c :: rest =>
    if c = sep then
      [] :: splitOnChar sep rest
    else
      match splitOnChar sep rest with
      | t :: ts => (c :: t) :: ts
      | [] => [[c]]

/-- ASCII decimal digit test, as used by Rust's `u64::from_str`
(`from_str_radix` with radix 10 accepts only ASCII digits). -/
def isAsciiDigit (c : Char) : Bool :=
  48 ≤ c.toNat && c.toNat ≤ 57

/-- Numeric value of a list of ASCII digit characters, most significant
first (the accumulation performed by `from_str_radix`). -/
def digitsVal (s : List Char) : Nat :=
  s.foldl (fun acc c => acc * 10 + (c.toNat - 48)) 0

/-- Rust `u64::from_str` accepts one optional leading `+` sign before the
digits; this strips it. -/
def stripPlus : List Char → List Char
  | [] => []
  | c :: rest => if c = '+' then rest else c :: rest

/-- Rust `str::parse::<u64>()`: optional leading `+`, then a non-empty run of
ASCII digits whose value fits in `u64`; anything else (empty, non-digit
characters, overflow) is an error, modelled as `none`.  For an all-digit
string, Rust's incremental overflow check fails exactly when the final value
is `≥ 2^64`, because the accumulator is monotone. -/
def parseU64 (s : List Char) : Option Nat :=
  if (stripPlus s).isEmpty then none
  else if (stripPlus s).all isAsciiDigit then
    if digitsVal (stripPlus s) < 2 ^ 64 then some (digitsVal (stripPlus s))
    else none
  else none

/-- `parse_semantic_version` from `src/macos/mod.rs`: split on `'.'`, require
2 or 3 tokens, parse each token as `u64` (the missing third token defaults to
`"0"`), return `(major, minor, patch)`. -/
def parse_semantic_version (version : String) : Option (Nat × Nat × Nat) :=
  let parts := splitOnChar '.' version.data
  if parts.length < 2 || parts.length > 3 then none
  else do
    let major ← parseU64 (parts.getD 0 [])
    let minor ← parseU64 (parts.getD 1 [])
    let patch ← parseU64 (parts.getD 2 ['0'])
    pure (major, minor, patch)

example : parse_semantic_version "10.15.21" = some (10, 15, 21) := by decide
example : parse_semantic_version "0.1" = some (0, 1, 0) := by decide
example : parse_semantic_version "0.1." = none := by decide
example : parse_semantic_version "a.b.c" = none := by decide
example : parse_semantic_version "+1.02" = some (1, 2, 0) := by decide

/-- Rust `char::is_whitespace`: the Unicode `White_Space` property
(U+0009–U+000D, U+0020, U+0085, U+00A0, U+1680, U+2000–U+200A, U+2028,
U+2029, U+202F, U+205F, U+3000). -/
def rustIsWhitespace (c : Char) : Bool :=
  (9 ≤ c.toNat && c.toNat ≤ 13) || c.toNat = 0x20 || c.toNat = 0x85 ||
  c.toNat = 0xA0 || c.toNat = 0x1680 ||
  (0x2000 ≤ c.toNat && c.toNat ≤ 0x200A) || c.toNat = 0x2028 ||
  c.toNat = 0x2029 || c.toNat = 0x202F || c.toNat = 0x205F || c.toNat = 0x3000

/-- Rust `str::trim`: drop leading and trailing `White_Space` characters. -/
def rustTrim (s : List Char) : List Char :=
  ((s.dropWhile rustIsWhitespace).reverse.dropWhile rustIsWhitespace).reverse

/-- `0x80 ≤ b ≤ 0xBF`: a UTF-8 continuation byte. -/
def isCont (b : Nat) : Bool :=
  0x80 ≤ b && b ≤ 0xBF

/-- Strict UTF-8 decoding of a byte sequence into Unicode scalar values, as
performed by Rust's `String::from_utf8`: rejects truncated sequences,
stray continuation bytes, overlong encodings, surrogate code points and
code points above U+10FFFF.  `none` models `Err(FromUtf8Error)`. -/
def utf8Decode? : List Nat → Option (List Char)
  | [] => some []
  | b0 :: rest =>
    if b0 ≤ 0x7F then
      (utf8Decode? rest).map (fun cs => Char.ofNat b0 :: cs)
    else if 0xC2 ≤ b0 && b0 ≤ 0xDF then
      match rest with
      | b1 :: rest1 =>
        if isCont b1 then
          (utf8Decode? rest1).map
            (fun cs => Char.ofNat ((b0 - 0xC0) * 0x40 + (b1 - 0x80)) :: cs)
        else none
      | [] => none
    else if 0xE0 ≤ b0 && b0 ≤ 0xEF then
      match rest with
      | b1 :: b2 :: rest2 =>
        let cp := (b0 - 0xE0) * 0x1000 + (b1 - 0x80) * 0x40 + (b2 - 0x80)
        if isCont b1 && isCont b2 && 0x800 ≤ cp &&
            !(0xD800 ≤ cp && cp ≤ 0xDFFF) then
          (utf8Decode? rest2).map (fun cs => Char.ofNat cp :: cs)
        else none
      | _ => none
    else if 0xF0 ≤ b0 && b0 ≤ 0xF4 then
      match rest with
      | b1 :: b2 :: b3 :: rest3 =>
        let cp := (b0 - 0xF0) * 0x40000 + (b1 - 0x80) * 0x1000 +
          (b2 - 0x80) * 0x40 + (b3 - 0x80)
        if isCont b1 && isCont b2 && isCont b3 && 0x10000 ≤ cp &&
            cp ≤ 0x10FFFF then
          (utf8Decode? rest3).map (fun cs => Char.ofNat cp :: cs)
        else none
      | _ => none
    else none

/-- `parse_bitness` from `src/macos/mod.rs`: decode the `getconf LONG_BIT`
stdout bytes as UTF-8 (a decode error yields `Unknown`), trim whitespace,
and compare against the literals `"32"` and `"64"`. -/
def parse_bitness (getconf_output : List Nat) : Bitness :=
  match utf8Decode? getconf_output with
  | some output =>
    if rustTrim output = "32".data then Bitness.X32
    else if rustTrim output = "64".data then Bitness.X64
    else Bitness.Unknown
  | none => Bitness.Unknown

example : parse_bitness [51, 50] = Bitness.X32 := by decide
example : parse_bitness [51, 50, 10] = Bitness.X32 := by decide
example : parse_bitness [54, 52, 10] = Bitness.X64 := by decide
example : parse_bitness [0xFF] = Bitness.Unknown := by decide
example : parse_bitness [0xC3, 0xA9] = Bitness.Unknown := by decide

/-- `p` is a literal prefix of `s` (character-wise comparison, as in Rust's
`str::starts_with` with a string pattern). -/
def isPrefixList : List Char → List Char → Bool
  | [], _ => true
  | _ :: _, [] => false
  | p :: ps, c :: cs => p = c && isPrefixList ps cs

/-- Modelled from the spec: the Line Matcher (`Matcher::PrefixedVersion` of
`src/matcher.rs`, which is not part of the provided sources).  Per spec
§4.1: scan the lines of the text in order and return the trimmed remainder
of the first line whose content, after trimming leading whitespace, begins
with the given label; if no line matches, return absence.  The remainder has
leading and trailing whitespace stripped before being returned. -/
def matcherFind (label : String) (text : String) : Option String :=
  List.findSome?
    (fun line =>
      let l := line.dropWhile rustIsWhitespace
      if isPrefixList label.data l then
        some (String.mk (rustTrim (l.drop label.data.length)))
      else none)
    (splitOnChar '\n' text.data)

/-- `parse` from `src/macos/mod.rs`: run the matcher with the fixed label
`"ProductVersion:"` on the `sw_vers` output. -/
def parse (sw_vers_output : String) : Option String :=
  matcherFind "ProductVersion:" sw_vers_output

/-- `product_version` from `src/macos/mod.rs`, with the outcome of spawning
`sw_vers` passed explicitly: `none` models a spawn failure (which is logged
and degrades to `None`), `some out` models captured stdout after lossy UTF-8
decoding.  On success the output is fed to `parse`. -/
def product_version (sw_vers_outcome : Option String) : Option String :=
  match sw_vers_outcome with
  | some out => parse out
  | none => none

/-- `version` from `src/macos/mod.rs`: if no product version was extracted,
`Version::unknown()`; otherwise semantic parse and wrap as
`Version::semantic(major, minor, patch, None)` on success or
`Version::custom(version, None)` on failure. -/
def version (sw_vers_outcome : Option String) : Version :=
  match product_version sw_vers_outcome with
  | none => Version.unknown
  | some val =>
    match parse_semantic_version val with
    | some (major, minor, patch) => Version.semantic major minor patch none
    | none => Version.custom val none

/-- `bitness` from `src/macos/mod.rs`, with the outcome of spawning
`getconf LONG_BIT` passed explicitly: `none` models a spawn failure
(degrades to `Bitness::Unknown`), `some bytes` models captured stdout. -/
def bitness (getconf_outcome : Option (List Nat)) : Bitness :=
  match getconf_outcome with
  | some bytes => parse_bitness bytes
  | none => Bitness.Unknown

/-- The outcomes of the two external commands a probe call observes:
`none` = the command failed to spawn, `some` = its captured stdout
(`sw_vers` after lossy text decoding, `getconf` as raw bytes). -/
structure HostOutputs : Type where
  sw_vers : Option String
  getconf : Option (List Nat)
deriving DecidableEq

/-- `current_platform` from `src/macos/mod.rs`: assembles the `Info` record
from the two command outcomes; the OS identity is the fixed constant
`Type::Macos`. -/
def current_platform (host : HostOutputs) : Info :=
  { os_type := OsType.Macos
    version := version host.sw_vers
    bitness := bitness host.getconf }

example :
    version (some "ProductName:\tMac OS X\nProductVersion:\t10.10.5\nBuildVersion:\t14F27") =
      Version.Semantic 10 10 5 none := by decide
example : version (some "ProductVersion:\tBeta7") = Version.Custom "Beta7" none := by decide

/-! ### Helper lemmas -/

theorem splitOnChar_eq_single (sep : Char) (a : List Char)
    (h : ∀ c ∈ a, c ≠ sep) : splitOnChar sep a = [a] := by
  induction a with
  | nil => rfl
  | cons c rest ih =>
    have hc : c ≠ sep := h c (List.mem_cons_self c rest)
    have hrest : ∀ x ∈ rest, x ≠ sep := fun x hx => h x (List.mem_cons_of_mem c hx)
    simp [splitOnChar, hc, ih hrest]

theorem splitOnChar_append (sep : Char) (a b : List Char)
    (h : ∀ c ∈ a, c ≠ sep) :
    splitOnChar sep (a ++ sep :: b) = a :: splitOnChar sep b := by
  induction a with
  | nil => simp [splitOnChar]
  | cons c rest ih =>
    have hc : c ≠ sep := h c (List.mem_cons_self c rest)
    have hrest : ∀ x ∈ rest, x ≠ sep := fun x hx => h x (List.mem_cons_of_mem c hx)
    simp [splitOnChar, hc, ih hrest]

theorem all_digits_no_dot (t : List Char) (hd : t.all isAsciiDigit = true) :
    ∀ c ∈ t, c ≠ '.' := by
  intro c hc hceq
  have hdig : isAsciiDigit c = true := by
    rw [List.all_eq_true] at hd
    exact hd c hc
  subst hceq
  simp [isAsciiDigit] at hdig

theorem parseU64_all_digits (t : List Char) (hne : t ≠ [])
    (hd : t.all isAsciiDigit = true) (hlt : digitsVal t < 2 ^ 64) :
    parseU64 t = some (digitsVal t) := by
  obtain ⟨c, cs, rfl⟩ : ∃ c cs, t = c :: cs := by
    cases t with
    | nil => exact absurd rfl hne
    | cons c cs => exact ⟨c, cs, rfl⟩
  have hc : isAsciiDigit c = true := by
    rw [List.all_eq_true] at hd
    exact hd c (List.mem_cons_self c cs)
  have hcp : c ≠ '+' := by
    intro h
    subst h
    simp [isAsciiDigit] at hc
  have hstrip : stripPlus (c :: cs) = c :: cs := by
    simp [stripPlus, hcp]
  simp [parseU64, hstrip, hd]
  simpa using hlt

theorem parseU64_overflow (t : List Char)
    (hd : t.all isAsciiDigit = true) (hge : 2 ^ 64 ≤ digitsVal t) :
    parseU64 t = none := by
  obtain ⟨c, cs, rfl⟩ : ∃ c cs, t = c :: cs := by
    cases t with
    | nil => simp [digitsVal] at hge
    | cons c cs => exact ⟨c, cs, rfl⟩
  have hc : isAsciiDigit c = true := by
    rw [List.all_eq_true] at hd
    exact hd c (List.mem_cons_self c cs)
  have hcp : c ≠ '+' := by
    intro h
    subst h
    simp [isAsciiDigit] at hc
  have hstrip : stripPlus (c :: cs) = c :: cs := by
    simp [stripPlus, hcp]
  have hnlt : ¬ digitsVal (c :: cs) < 2 ^ 64 := Nat.not_lt.mpr hge
  simp [parseU64, hstrip, hd, hnlt]
  simpa using hge

theorem psv_none_iff (s : String) :
    parse_semantic_version s = none ↔
      ((splitOnChar '.' s.data).length < 2 ∨ 3 < (splitOnChar '.' s.data).length ∨
        ∃ t ∈ splitOnChar '.' s.data, parseU64 t = none) := by
  have h0 : parseU64 ['0'] = some 0 := rfl
  rcases hp : splitOnChar '.' s.data with _ | ⟨a, _ | ⟨b, _ | ⟨c, _ | ⟨d, rest⟩⟩⟩⟩
  · simp [parse_semantic_version, hp]
  · simp [parse_semantic_version, hp]
  · rcases ha : parseU64 a with _ | va <;> rcases hb : parseU64 b with _ | vb <;>
      simp [parse_semantic_version, hp, ha, hb, h0]
  · rcases ha : parseU64 a with _ | va <;> rcases hb : parseU64 b with _ | vb <;>
      rcases hc : parseU64 c with _ | vc <;>
      simp [parse_semantic_version, hp, ha, hb, hc]
  · simp [parse_semantic_version, hp]

/-! ### Claims -/

/-- Claim C1: for every dotted string of the form `"{maj}.{min}"` or
`"{maj}.{min}.{pat}"` whose tokens are decimal representations (non-empty
runs of ASCII digits) of non-negative integers fitting in `u64`,
`parse_semantic_version` returns `some (maj, min, pat)`, with `pat = 0`
when the third token is omitted. -/
theorem parse_semantic_version_accepts_dotted (t1 t2 t3 : List Char)
    (hne1 : t1 ≠ []) (hd1 : t1.all isAsciiDigit = true)
    (hlt1 : digitsVal t1 < 2 ^ 64)
    (hne2 : t2 ≠ []) (hd2 : t2.all isAsciiDigit = true)
    (hlt2 : digitsVal t2 < 2 ^ 64)
    (hne3 : t3 ≠ []) (hd3 : t3.all isAsciiDigit = true)
    (hlt3 : digitsVal t3 < 2 ^ 64) :
    parse_semantic_version (String.mk (t1 ++ '.' :: (t2 ++ '.' :: t3)))
        = some (digitsVal t1, digitsVal t2, digitsVal t3)
      ∧ parse_semantic_version (String.mk (t1 ++ '.' :: t2))
        = some (digitsVal t1, digitsVal t2, 0) := by
  have hsplit3 : splitOnChar '.' (t1 ++ '.' :: (t2 ++ '.' :: t3)) = [t1, t2, t3] := by
    rw [splitOnChar_append '.' t1 _ (all_digits_no_dot t1 hd1),
        splitOnChar_append '.' t2 _ (all_digits_no_dot t2 hd2),
        splitOnChar_eq_single '.' t3 (all_digits_no_dot t3 hd3)]
  have hsplit2 : splitOnChar '.' (t1 ++ '.' :: t2) = [t1, t2] := by
    rw [splitOnChar_append '.' t1 _ (all_digits_no_dot t1 hd1),
        splitOnChar_eq_single '.' t2 (all_digits_no_dot t2 hd2)]
  have h0 : parseU64 ['0'] = some 0 := rfl
  constructor
  · simp [parse_semantic_version, hsplit3,
      parseU64_all_digits t1 hne1 hd1 hlt1,
      parseU64_all_digits t2 hne2 hd2 hlt2,
      parseU64_all_digits t3 hne3 hd3 hlt3]
  · simp [parse_semantic_version, hsplit2, h0,
      parseU64_all_digits t1 hne1 hd1 hlt1,
      parseU64_all_digits t2 hne2 hd2 hlt2]

/-- Witness for C1 at the tokens `"10"`, `"15"`, `"21"`. -/
theorem parse_semantic_version_accepts_dotted_witness :
    parse_semantic_version (String.mk ("10".data ++ '.' :: ("15".data ++ '.' :: "21".data)))
        = some (digitsVal "10".data, digitsVal "15".data, digitsVal "21".data)
      ∧ parse_semantic_version (String.mk ("10".data ++ '.' :: "15".data))
        = some (digitsVal "10".data, digitsVal "15".data, 0) :=
  parse_semantic_version_accepts_dotted "10".data "15".data "21".data
    (by decide) (by decide) (by decide) (by decide) (by decide) (by decide)
    (by decide) (by decide) (by decide)

/-- Claim C2: `parse_semantic_version` returns `none` if and only if
splitting on `'.'` yields a token count other than 2 or 3, or some token
fails to parse as an unsigned 64-bit integer (non-numeric, empty, or
overflowing); the function is total, so it never panics on any input. -/
theorem parse_semantic_version_none_iff (s : String) :
    parse_semantic_version s = none ↔
      ((splitOnChar '.' s.data).length < 2 ∨ 3 < (splitOnChar '.' s.data).length ∨
        ∃ t ∈ splitOnChar '.' s.data, parseU64 t = none) :=
  psv_none_iff s

/-- Claim C3: `parse_semantic_version` matches the spec's edge-case table:
`""`, `"0"`, `"0."`, `"0.1."`, `"0.1.2."` and `"a.b.c"` all fail, while
`"0.1"` gives `(0, 1, 0)` and `"0.1.2"` gives `(0, 1, 2)`. -/
theorem parse_semantic_version_edge_table :
    parse_semantic_version "" = none ∧
    parse_semantic_version "0" = none ∧
    parse_semantic_version "0." = none ∧
    parse_semantic_version "0.1" = some (0, 1, 0) ∧
    parse_semantic_version "0.1." = none ∧
    parse_semantic_version "0.1.2" = some (0, 1, 2) ∧
    parse_semantic_version "0.1.2." = none ∧
    parse_semantic_version "a.b.c" = none := by decide

/-- Claim C4: `parse_bitness` returns `X32` exactly when the input bytes
decode as UTF-8 to a string that trims to `"32"`, `X64` exactly when they
decode and trim to `"64"`, and `Unknown` in every other case, including
inputs that are not valid UTF-8; being a total function, it returns a
defined value on every input. -/
theorem parse_bitness_classifies (bs : List Nat) :
    (parse_bitness bs = Bitness.X32 ↔
      ∃ s, utf8Decode? bs = some s ∧ rustTrim s = "32".data) ∧
    (parse_bitness bs = Bitness.X64 ↔
      ∃ s, utf8Decode? bs = some s ∧ rustTrim s = "64".data) ∧
    ((utf8Decode? bs = none ∨
        ∃ s, utf8Decode? bs = some s ∧
          rustTrim s ≠ "32".data ∧ rustTrim s ≠ "64".data) →
      parse_bitness bs = Bitness.Unknown) := by
  rcases hdec : utf8Decode? bs with _ | s
  · simp [parse_bitness, hdec]
  · by_cases h32 : rustTrim s = "32".data
    · simp [parse_bitness, hdec, h32]
    · by_cases h64 : rustTrim s = "64".data
      · simp [parse_bitness, hdec, h32, h64]
      · simp [parse_bitness, hdec, h32, h64]

/-- Witness for C4 at the invalid UTF-8 input `[0xFF]`. -/
theorem parse_bitness_classifies_witness :
    parse_bitness [0xFF] = Bitness.Unknown :=
  (parse_bitness_classifies [0xFF]).2.2 (Or.inl (by decide))

/-- Claim C5: the version classifier returns `Version::Unknown` when no
version value is extracted; when a value is extracted it returns
`Version::Semantic(major, minor, patch, None)` if `parse_semantic_version`
succeeds on it, and `Version::Custom(value, None)` with the extracted
string preserved verbatim if parsing fails. -/
theorem version_classifier (r : Option String) :
    (product_version r = none → version r = Version.Unknown) ∧
    (∀ val, product_version r = some val →
      ((∀ mj mn pt, parse_semantic_version val = some (mj, mn, pt) →
          version r = Version.Semantic mj mn pt none) ∧
        (parse_semantic_version val = none →
          version r = Version.Custom val none))) := by
  refine ⟨fun h => ?_, fun val hval => ⟨fun mj mn pt hp => ?_, fun hp => ?_⟩⟩
  · simp [version, h, Version.unknown]
  · simp [version, hval, hp, Version.semantic]
  · simp [version, hval, hp, Version.custom]

/-- Witness for C5 at `"ProductVersion:\t10.15"`. -/
theorem version_classifier_witness :
    version (some "ProductVersion:\t10.15") = Version.Semantic 10 15 0 none :=
  ((version_classifier (some "ProductVersion:\t10.15")).2 "10.15"
    (by decide)).1 10 15 0 (by decide)

/-- Claim C6: the version-extraction pipeline on the three `sw_vers`-style
texts yields `Semantic(10,10,5,None)`, `Semantic(10,15,0,None)` and
`Custom("Beta7", None)` respectively. -/
theorem version_pipeline_examples :
    version (some "ProductName:\tMac OS X\nProductVersion:\t10.10.5\nBuildVersion:\t14F27")
        = Version.Semantic 10 10 5 none ∧
    version (some "ProductName:\tMac OS X\nProductVersion:\t10.15\nBuildVersion:\t19A546d")
        = Version.Semantic 10 15 0 none ∧
    version (some "ProductName:\tMac OS X\nProductVersion:\tBeta7\nBuildVersion:\t19A546d")
        = Version.Custom "Beta7" none := by decide

/-- Claim C7: for every token (of the dot-split input) that is a run of
ASCII digits whose numeric value is at least `2^64`, the parse of that
token overflows and `parse_semantic_version` returns `none` rather than
panicking or wrapping. -/
theorem parse_semantic_version_overflow (s : String) (t : List Char)
    (ht : t ∈ splitOnChar '.' s.data) (hd : t.all isAsciiDigit = true)
    (hge : 2 ^ 64 ≤ digitsVal t) :
    parse_semantic_version s = none :=
  (psv_none_iff s).mpr (Or.inr (Or.inr ⟨t, ht, parseU64_overflow t hd hge⟩))

/-- Witness for C7 at `"99999999999999999999.1"`. -/
theorem parse_semantic_version_overflow_witness :
    parse_semantic_version "99999999999999999999.1" = none :=
  parse_semantic_version_overflow "99999999999999999999.1"
    "99999999999999999999".data (by decide) (by decide) (by decide)

/-- Claim C8: `current_platform` always returns an `Info` value (it is a
total function with no error return): a `sw_vers` spawn failure yields
`Version::Unknown` in the version field, a `getconf` spawn failure yields
`Bitness::Unknown` in the bitness field, and the `os_type` field is always
the fixed constant `Type::Macos`. -/
theorem current_platform_total (host : HostOutputs) :
    (current_platform host).os_type = OsType.Macos ∧
    (host.sw_vers = none → (current_platform host).version = Version.Unknown) ∧
    (host.getconf = none → (current_platform host).bitness = Bitness.Unknown) := by
  refine ⟨rfl, fun h => ?_, fun h => ?_⟩
  · simp [current_platform, version, product_version, h, Version.unknown]
  · simp [current_platform, bitness, h]

/-- Witness for C8 at the host where both commands fail to spawn. -/
theorem current_platform_total_witness :
    (current_platform ⟨none, none⟩).os_type = OsType.Macos ∧
    (current_platform ⟨none, none⟩).version = Version.Unknown ∧
    (current_platform ⟨none, none⟩).bitness = Bitness.Unknown := by
  obtain ⟨h1, h2, h3⟩ := current_platform_total ⟨none, none⟩
  exact ⟨h1, h2 rfl, h3 rfl⟩

/-- Claim C9: the probe is deterministic in its observed inputs: two probe
invocations that see the same `sw_vers` outcome and the same `getconf`
outcome produce structurally equal `Info` values. -/
theorem current_platform_deterministic (hostA hostB : HostOutputs)
    (hv : hostA.sw_vers = hostB.sw_vers) (hb : hostA.getconf = hostB.getconf) :
    current_platform hostA = current_platform hostB := by
  simp [current_platform, hv, hb]

/-- Witness for C9 at two structurally equal host observations. -/
theorem current_platform_deterministic_witness :
    current_platform ⟨some "ProductVersion:\t10.15", some [51, 50]⟩
      = current_platform ⟨some "ProductVersion:\t10.15", some [51, 50]⟩ :=
  current_platform_deterministic
    ⟨some "ProductVersion:\t10.15", some [51, 50]⟩
    ⟨some "ProductVersion:\t10.15", some [51, 50]⟩ rfl rfl

theorem whitespace_not_digit (c : Char) (hw : rustIsWhitespace c = true) :
    isAsciiDigit c = false := by
  simp only [rustIsWhitespace, Bool.or_eq_true, Bool.and_eq_true,
    decide_eq_true_eq] at hw
  simp only [isAsciiDigit, Bool.and_eq_false_iff, decide_eq_false_iff_not]
  omega

theorem mem_stripPlus_of_whitespace (t : List Char) (c : Char) (hc : c ∈ t)
    (hw : rustIsWhitespace c = true) : c ∈ stripPlus t := by
  cases t with
  | nil => cases hc
  | cons a rest =>
    by_cases ha : a = '+'
    · subst ha
      have hcp : c ≠ '+' := by
        intro h
        subst h
        simp [rustIsWhitespace] at hw
      simp [stripPlus]
      rcases List.mem_cons.mp hc with h | h
      · exact absurd h hcp
      · exact h
    · simpa [stripPlus, ha] using hc

theorem parseU64_whitespace_none (t : List Char) (c : Char) (hc : c ∈ t)
    (hw : rustIsWhitespace c = true) : parseU64 t = none := by
  have hcs : c ∈ stripPlus t := mem_stripPlus_of_whitespace t c hc hw
  have hall : (stripPlus t).all isAsciiDigit = false := by
    cases hb : (stripPlus t).all isAsciiDigit
    · rfl
    · have hdig := List.all_eq_true.mp hb c hcs
      rw [whitespace_not_digit c hw] at hdig
      exact absurd hdig Bool.false_ne_true
  cases he : (stripPlus t).isEmpty
  · simp [parseU64, he, hall]
  · simp [parseU64, he]

/-- Claim C10: `parse_semantic_version` accepts tokens beyond canonical
decimal numerals — a leading `'+'` sign and leading zeros are accepted with
their numeric values (`"+1.02"` gives `(1,2,0)`, `"01.2.003"` gives
`(1,2,3)`) — while for every input string one of whose dot-split tokens
contains a whitespace character (e.g. `"10. 5"`), parsing returns `none`:
the input must already be trimmed. -/
theorem parse_semantic_version_lenient (s : String) (t : List Char) (c : Char)
    (ht : t ∈ splitOnChar '.' s.data) (hc : c ∈ t)
    (hw : rustIsWhitespace c = true) :
    parse_semantic_version "+1.02" = some (1, 2, 0) ∧
    parse_semantic_version "01.2.003" = some (1, 2, 3) ∧
    parse_semantic_version s = none := by
  refine ⟨by decide, by decide, ?_⟩
  exact (psv_none_iff s).mpr
    (Or.inr (Or.inr ⟨t, ht, parseU64_whitespace_none t c hc hw⟩))

/-- Witness for C10 at `"10. 5"`, whose second token contains a space. -/
theorem parse_semantic_version_lenient_witness :
    parse_semantic_version "+1.02" = some (1, 2, 0) ∧
    parse_semantic_version "01.2.003" = some (1, 2, 3) ∧
    parse_semantic_version "10. 5" = none :=
  parse_semantic_version_lenient "10. 5" " 5".data ' '
    (by decide) (by decide) (by decide)
